import Mathlib

/-!
Verification development for the ENUM synchronization engine of PyHSS
(`lib/enum_management.py`).  The Python class `ENUMClient` is embedded
shallowly: its configuration becomes a structure, the pure helpers become
Lean functions on `String`/`List Char`, the network transport
(`_make_pdns_request`, which performs an HTTP PATCH) becomes an oracle
parameter `T : TransportFn` returning the `(success, error_message)` pair
that the Python function returns, and a raised `ENUMManagementError`
becomes the `.error` branch of an `Except`.  Calls made to the transport
are recorded in an `attempts` trace so that claims about "no transport
call is made" / "no later endpoint/domain pair is attempted" can be
stated.  Logging (`self._log`) is modelled for the `log_tool=None`
configuration, where every `_log` call is a no-op; the one log event a
claim refers to (the page-ceiling warning in `reconcile_all`) is recorded
in a dedicated `warnedCeiling` flag.
-/

/-- Python `''.join(filter(str.isdigit, s))`: keep only the digit
characters of a string (used by `msisdn_to_enum_name`,
`generate_naptr_content` and `_parse_msisdn_list`). -/
def cleanDigits (s : String) : String :=
  ⟨s.data.filter Char.isDigit⟩

/-- Python `'.'.join(xs)` over the characters of a string: interleave the
character list with dots. -/
def joinDot : List Char → List Char
  | [] => []
  | [c] => [c]
  | c :: c' :: rest => c :: '.' :: joinDot (c' :: rest)

/-- `ENUMClient.msisdn_to_enum_name` (enum_management.py lines 65-84):
strip non-digits, reverse the digits, join them with dots and append
`"." ++ domain` (the Python f-string `f"{reversed_digits}.{domain}"`). -/
def msisdn_to_enum_name (msisdn domain : String) : String :=
  let clean := msisdn.data.filter Char.isDigit
  ⟨joinDot clean.reverse ++ '.' :: domain.data⟩

/-- One PowerDNS endpoint dictionary from the `enum.endpoints`
configuration list.  Keys that `endpoint.get(...)` may find absent are
`Option`s; `domains` defaults to `[]` (`endpoint.get('domains', [])`). -/
structure Endpoint where
  name : Option String
  url : Option String
  api_key : String
  sip_domain : Option String
  domains : List String
deriving DecidableEq, Repr

/-- The `enum` configuration section held by `ENUMClient.__init__`:
`enabled`, `strict_mode`, `naptr_order`, `naptr_preference`, `naptr_ttl`
and the endpoint list, with the Python defaults applied at load. -/
structure ENUMClient where
  enabled : Bool
  strict_mode : Bool
  naptr_order : Nat
  naptr_preference : Nat
  naptr_ttl : Nat
  endpoints : List Endpoint
deriving DecidableEq, Repr

/-- Python `endpoint.get('name', endpoint.get('url', 'unknown'))`. -/
def endpointName (e : Endpoint) : String :=
  match e.name with
  | some n => n
  | none => e.url.getD "unknown"

/-- Python `f"{x}"` on an `Optional[str]`: `None` prints as `"None"`. -/
def optStr : Option String → String
  | none => "None"
  | some s => s

/-- `ENUMClient.generate_naptr_content` (lines 86-105): the NAPTR record
content string
`<order> <preference> "u" "E2U+sip" "!^.*$!sip:<digits>@<sipDomain>!" .`. -/
def generate_naptr_content (c : ENUMClient) (msisdn sip_domain : String) : String :=
  let clean := cleanDigits msisdn
  toString c.naptr_order ++ " " ++ toString c.naptr_preference ++
    " \"u\" \"E2U+sip\" \"!^.*$!sip:" ++ clean.data.asString ++ "@" ++
    sip_domain ++ "!\" ."

/-- Python `str.split(',')` at the character level: splitting the empty
string gives `[[]]` (Python `''.split(',') == ['']`), and consecutive
commas produce empty groups. -/
def splitOnComma : List Char → List (List Char)
  | [] => [[]]
  | c :: rest =>
    let r := splitOnComma rest
    if c = ',' then [] :: r
    else
      match r with
      | [] => [[c]]
      | g :: gs => (c :: g) :: gs

/-- Python `str.strip()`: drop whitespace from both ends. -/
def pyStrip (s : List Char) : List Char :=
  ((s.dropWhile Char.isWhitespace).reverse.dropWhile Char.isWhitespace).reverse

/-- The `for m in msisdn_list.split(','):` loop body of
`_parse_msisdn_list` (lines 125-129): normalize each entry and append it
unless it is empty or already present. -/
def parseFold (acc : List String) : List (List Char) → List String
  | [] => acc
  | mc :: rest =>
    let clean : String := ⟨(pyStrip mc).filter Char.isDigit⟩
    parseFold (if clean ≠ "" ∧ clean ∉ acc then acc ++ [clean] else acc) rest

/-- The `if msisdn:` block of `_parse_msisdn_list` (lines 120-123): the
primary MSISDN, normalized, kept when the input is truthy and the
normalization non-empty. -/
def parsePrimary (msisdn : Option String) : List String :=
  match msisdn with
  | some m =>
    if m ≠ "" then
      let clean := cleanDigits m
      if clean ≠ "" then [clean] else []
    else []
  | none => []

/-- `ENUMClient._parse_msisdn_list` (lines 107-131): the primary MSISDN
(normalized, when truthy and non-empty after cleaning) followed by the
normalized comma-separated list entries, deduplicated in order. -/
def _parse_msisdn_list (msisdn msisdn_list : Option String) : List String :=
  match msisdn_list with
  | some ml =>
    if ml ≠ "" then parseFold (parsePrimary msisdn) (splitOnComma ml.data)
    else parsePrimary msisdn
  | none => parsePrimary msisdn

/-- Python `','.join(l)` at the character level. -/
def joinCommaL : List String → List Char
  | [] => []
  | [m] => m.data
  | m :: m' :: rest => m.data ++ ',' :: joinCommaL (m' :: rest)

/-- Python `','.join(l)` as a string (used by `update_enum_entries` to
pass the computed difference sets to the delete/create sub-calls). -/
def joinComma (l : List String) : String :=
  ⟨joinCommaL l⟩

/-- One record inside an rrset (`{'content': ..., 'disabled': False}`). -/
structure NaptrRecord where
  content : String
  disabled : Bool
deriving DecidableEq, Repr

/-- One rrset dictionary sent to the PowerDNS API.  `ttl` is present only
for create (REPLACE) mutations, matching the Python dict literals. -/
structure RRset where
  name : String
  rtype : String
  ttl : Option Nat
  changetype : String
  records : List NaptrRecord
deriving DecidableEq, Repr

/-- The `_make_pdns_request` transport boundary (lines 133-165): given the
endpoint, the zone and the rrset batch, the outside world answers with the
`(success, error_message)` pair that function returns. -/
def TransportFn : Type :=
  Endpoint → String → List RRset → Bool × Option String

/-- Per-domain entry of the Python result tree:
`results['endpoints'][endpoint_name]['domains'][domain]
  = {'success': ..., 'msisdns': all_msisdns}`, flattened into a list that
keeps the (endpoint order, domain order) iteration sequence. -/
structure DomainOutcome where
  endpoint : String
  domain : String
  success : Bool
  msisdns : List String
deriving DecidableEq, Repr

/-- The mutable `results` dictionary of `create_enum_entries` /
`delete_enum_entries` while the double loop runs, plus the `attempts`
instrumentation listing the `(endpoint_name, domain)` pairs for which
`_make_pdns_request` was invoked, in call order. -/
structure OpAcc where
  outcomes : List DomainOutcome
  errors : List String
  attempts : List (String × String)
deriving DecidableEq, Repr

/-- The returned result dictionary of a create/delete call: `status`, the
per-domain outcomes and the accumulated `errors` list.  The Python
`disabled` / `no_msisdns` short-circuit dictionaries carry only the
`status` key; they are modelled with empty lists for the other fields. -/
structure OpResult where
  status : String
  outcomes : List DomainOutcome
  errors : List String
deriving DecidableEq, Repr

/-- The `for domain in endpoint.get('domains', []):` loop shared by
`create_enum_entries` (lines 203-233) and `delete_enum_entries`
(lines 275-303): build the rrsets for the domain, invoke the transport,
record the per-domain outcome, and on failure append the formatted
`"<endpoint>/<domain>: <detail>"` error; under strict mode a failure
raises `ENUMManagementError(failMsg ++ error_detail)` immediately,
modelled as the `.error` branch carrying the message and the state at the
moment of the raise. -/
def runDomains (c : ENUMClient) (T : TransportFn) (failMsg : String)
    (e : Endpoint) (ename : String) (buildRR : String → List RRset)
    (msisdns : List String) :
    List String → OpAcc → Except (String × OpAcc) OpAcc
  | [], acc => .ok acc
  | domain :: rest, acc =>
    let tr := T e domain (buildRR domain)
    let acc1 : OpAcc :=
      { outcomes := acc.outcomes ++ [⟨ename, domain, tr.1, msisdns⟩]
        errors := acc.errors
        attempts := acc.attempts ++ [(ename, domain)] }
    if tr.1 then
      runDomains c T failMsg e ename buildRR msisdns rest acc1
    else
      let error_detail := ename ++ "/" ++ domain ++ ": " ++ optStr tr.2
      let acc2 : OpAcc := { acc1 with errors := acc1.errors ++ [error_detail] }
      if c.strict_mode then .error (failMsg ++ error_detail, acc2)
      else runDomains c T failMsg e ename buildRR msisdns rest acc2

/-- The `for endpoint in self.endpoints:` loop shared by the create and
delete operations. -/
def runEndpoints (c : ENUMClient) (T : TransportFn) (failMsg : String)
    (buildRR : Endpoint → String → List RRset) (msisdns : List String) :
    List Endpoint → OpAcc → Except (String × OpAcc) OpAcc
  | [], acc => .ok acc
  | e :: rest, acc =>
    match runDomains c T failMsg e (endpointName e) (buildRR e) msisdns e.domains acc with
    | .error x => .error x
    | .ok acc1 => runEndpoints c T failMsg buildRR msisdns rest acc1

/-- Common body of `create_enum_entries` and `delete_enum_entries`
(which differ only in the rrsets they build and the raised message): the
`enabled` check, the parse / `no_msisdns` check, the endpoint/domain
double loop, and the final `if results['errors']: status = 'partial'`.
The second component of the returned pair (in both the `.ok` and the
`.error` case) is the transport-attempt trace. -/
def runOp (c : ENUMClient) (T : TransportFn) (failMsg : String)
    (buildRR : List String → Endpoint → String → List RRset)
    (msisdn msisdn_list : Option String) :
    Except (String × List (String × String)) (OpResult × List (String × String)) :=
  if c.enabled = false then .ok (⟨"disabled", [], []⟩, [])
  else
    let all_msisdns := _parse_msisdn_list msisdn msisdn_list
    if all_msisdns = [] then .ok (⟨"no_msisdns", [], []⟩, [])
    else
      match runEndpoints c T failMsg (buildRR all_msisdns) all_msisdns c.endpoints ⟨[], [], []⟩ with
      | .error (msg, acc) => .error (msg, acc.attempts)
      | .ok acc =>
        .ok (⟨if acc.errors = [] then "ok" else "partial", acc.outcomes, acc.errors⟩, acc.attempts)

/-- The rrset batch built by `create_enum_entries` for one domain
(lines 204-216): one REPLACE NAPTR rrset with TTL per MSISDN, the record
name carrying the trailing dot.  `sip_domain` is
`endpoint.get('sip_domain', '')`. -/
def createRRsets (c : ENUMClient) (msisdns : List String) (e : Endpoint)
    (domain : String) : List RRset :=
  msisdns.map fun m =>
    { name := msisdn_to_enum_name m domain ++ "."
      rtype := "NAPTR"
      ttl := some c.naptr_ttl
      changetype := "REPLACE"
      records := [⟨generate_naptr_content c m (e.sip_domain.getD ""), false⟩] }

/-- The rrset batch built by `delete_enum_entries` for one domain
(lines 276-286): one DELETE NAPTR rrset, no TTL, no records. -/
def deleteRRsets (msisdns : List String) (_e : Endpoint)
    (domain : String) : List RRset :=
  msisdns.map fun m =>
    { name := msisdn_to_enum_name m domain ++ "."
      rtype := "NAPTR"
      ttl := none
      changetype := "DELETE"
      records := [] }

/-- `ENUMClient.create_enum_entries` (lines 167-238). -/
def create_enum_entries (c : ENUMClient) (T : TransportFn)
    (msisdn msisdn_list : Option String) :
    Except (String × List (String × String)) (OpResult × List (String × String)) :=
  runOp c T "ENUM creation failed: " (createRRsets c) msisdn msisdn_list

/-- `ENUMClient.delete_enum_entries` (lines 240-308). -/
def delete_enum_entries (c : ENUMClient) (T : TransportFn)
    (msisdn msisdn_list : Option String) :
    Except (String × List (String × String)) (OpResult × List (String × String)) :=
  runOp c T "ENUM deletion failed: " deleteRRsets msisdn msisdn_list

/-- The result dictionary of `update_enum_entries` (lines 347-352):
status, the echoed deleted/created lists and the merged error list.  The
`disabled` short-circuit dictionary carries only `status`. -/
structure UpdResult where
  status : String
  deleted : List String
  created : List String
  errors : List String
deriving DecidableEq, Repr

instance {ε α : Type} [DecidableEq ε] [DecidableEq α] : DecidableEq (Except ε α)
  | .ok a, .ok b =>
    if h : a = b then .isTrue (by rw [h]) else .isFalse (by simp [h])
  | .ok _, .error _ => .isFalse (by simp)
  | .error _, .ok _ => .isFalse (by simp)
  | .error a, .error b =>
    if h : a = b then .isTrue (by rw [h]) else .isFalse (by simp [h])

/-- Observable behaviour of one `update_enum_entries` call: the returned
dictionary (or the raised `ENUMManagementError` message), the sub-call
trace (operation kind and the comma-joined argument string of each
`delete_enum_entries` / `create_enum_entries` invocation, in order) and
the transport-attempt trace accumulated over the sub-calls. -/
structure UpdOut where
  result : Except String UpdResult
  subcalls : List (String × String)
  attempts : List (String × String)
deriving DecidableEq, Repr

/-- Outcome of one phase (delete or create) of `update_enum_entries`:
the sub-call trace, the transport attempts, the list assigned to
`results['deleted']` / `results['created']`, the errors contributed, and
the re-raised message when the sub-call raised under strict mode
(lines 354-366 / 368-380). -/
structure PhaseOut where
  subcalls : List (String × String)
  attempts : List (String × String)
  done : List String
  errors : List String
  raised : Option String
deriving DecidableEq, Repr

/-- Delete phase of `update_enum_entries` (lines 354-366): skipped when
`to_delete` is empty; otherwise `delete_enum_entries(None, ','.join(to_delete))`
with the `except ENUMManagementError` handler that records `str(e)` and
re-raises when `self.strict_mode` holds. -/
def updDeletePhase (c : ENUMClient) (T : TransportFn) (to_delete : List String) : PhaseOut :=
  if to_delete = [] then ⟨[], [], [], [], none⟩
  else
    let delete_list := joinComma to_delete
    match delete_enum_entries c T none (some delete_list) with
    | .ok (r, att) => ⟨[("delete", delete_list)], att, to_delete, r.errors, none⟩
    | .error (msg, att) =>
      ⟨[("delete", delete_list)], att, [], [msg], if c.strict_mode then some msg else none⟩

/-- Create phase of `update_enum_entries` (lines 368-380), mirroring the
delete phase. -/
def updCreatePhase (c : ENUMClient) (T : TransportFn) (to_create : List String) : PhaseOut :=
  if to_create = [] then ⟨[], [], [], [], none⟩
  else
    let create_list := joinComma to_create
    match create_enum_entries c T none (some create_list) with
    | .ok (r, att) => ⟨[("create", create_list)], att, to_create, r.errors, none⟩
    | .error (msg, att) =>
      ⟨[("create", create_list)], att, [], [msg], if c.strict_mode then some msg else none⟩

/-- `ENUMClient.update_enum_entries` (lines 310-385).  Python builds
`old_set`/`new_set` with `set(...)` over the already-deduplicated parse
results and takes set differences; the sets are modelled by the
deduplicated parse lists themselves, the differences by `List.filter`
(same elements; Python's set iteration order is unspecified, here the
parse order is used). -/
def update_enum_entries (c : ENUMClient) (T : TransportFn)
    (old_msisdn old_msisdn_list new_msisdn new_msisdn_list : Option String) : UpdOut :=
  if c.enabled = false then ⟨.ok ⟨"disabled", [], [], []⟩, [], []⟩
  else
    let old_set := _parse_msisdn_list old_msisdn old_msisdn_list
    let new_set := _parse_msisdn_list new_msisdn new_msisdn_list
    let to_delete := old_set.filter fun x => x ∉ new_set
    let to_create := new_set.filter fun x => x ∉ old_set
    let d := updDeletePhase c T to_delete
    match d.raised with
    | some msg => ⟨.error msg, d.subcalls, d.attempts⟩
    | none =>
      let cr := updCreatePhase c T to_create
      match cr.raised with
      | some msg => ⟨.error msg, d.subcalls ++ cr.subcalls, d.attempts ++ cr.attempts⟩
      | none =>
        let errors := d.errors ++ cr.errors
        ⟨.ok ⟨if errors = [] then "ok" else "partial", d.done, cr.done, errors⟩,
         d.subcalls ++ cr.subcalls, d.attempts ++ cr.attempts⟩

/-- One IMS subscriber row as consumed by `reconcile_all`
(`sub.get('msisdn')`, `sub.get('msisdn_list')`,
`sub.get('ims_subscriber_id')`). -/
structure Subscriber where
  msisdn : Option String
  msisdn_list : Option String
  ims_subscriber_id : Option String
deriving DecidableEq, Repr

/-- One entry of `results['subscribers']` in `reconcile_all`; the three
Python dict shapes (ok / partial / error) share this record, with `[]`
and `none` for absent keys. -/
structure SubOutcome where
  ims_subscriber_id : Option String
  msisdn : Option String
  status : String
  errors : List String
  error : Option String
deriving DecidableEq, Repr

/-- The `results` dictionary of `reconcile_all` (lines 406-413), extended
with two instrumentation fields: `pagesFetched` counts the
`database_client.getAllPaginated` calls made, and `warnedCeiling` records
whether the `"Reconciliation stopped at page 10000"` warning was
logged. -/
structure RecResult where
  status : String
  processed : Nat
  succeeded : Nat
  failed : Nat
  errors : List String
  subscribers : List SubOutcome
  pagesFetched : Nat
  warnedCeiling : Bool
deriving DecidableEq, Repr

/-- The `for sub in subscribers:` body of `reconcile_all` (lines 433-466):
count the subscriber as processed, call `create_enum_entries`, and record
the outcome; a raised `ENUMManagementError` is caught here, counted as
failed and appended to the global error list. -/
def processSub (c : ENUMClient) (T : TransportFn) (st : RecResult)
    (sub : Subscriber) : RecResult :=
  let st := { st with processed := st.processed + 1 }
  match create_enum_entries c T sub.msisdn sub.msisdn_list with
  | .ok (res, _) =>
    if res.status = "ok" ∨ res.status = "disabled" ∨ res.status = "no_msisdns" then
      { st with succeeded := st.succeeded + 1
                subscribers := st.subscribers ++
                  [⟨sub.ims_subscriber_id, sub.msisdn, "ok", [], none⟩] }
    else
      { st with failed := st.failed + 1
                subscribers := st.subscribers ++
                  [⟨sub.ims_subscriber_id, sub.msisdn, "partial", res.errors, none⟩] }
  | .error (msg, _) =>
    { st with failed := st.failed + 1
              errors := st.errors ++
                ["Subscriber " ++ optStr sub.ims_subscriber_id ++ ": " ++ msg]
              subscribers := st.subscribers ++
                [⟨sub.ims_subscriber_id, sub.msisdn, "error", [], some msg⟩] }

/-- The subscriber source: `database_client.getAllPaginated(IMS_SUBSCRIBER,
page, page_size)`.  A raised exception (the store becoming unreachable)
is the `.error` branch; returning `None` or `[]` is `.ok []`. -/
def FetchFn : Type :=
  Nat → Nat → Except String (List Subscriber)

/-- The `while True:` pagination loop of `reconcile_all` (lines 423-473):
fetch a page (page size 100), stop on an empty page, process every
subscriber, then `page += 1` and stop once `page > 10000` (setting the
ceiling-warning flag).  An exception from the fetch aborts the loop and
is reported in the second component, to be handled by the sweep-level
`except` block.  The Python loop has no fuel; the `fuel` argument only
makes the recursion structural, and `10001` units are exactly enough for
the worst case page sequence `0..10000` (theorem `reconcileLoop_fuel_irrel`
below shows any fuel covering the remaining pages yields the same
result). -/
def reconcileLoop (c : ENUMClient) (T : TransportFn) (fetch : FetchFn) :
    Nat → Nat → RecResult → RecResult × Option String
  | 0, _, st => (st, none)
  | fuel + 1, page, st =>
    match fetch page 100 with
    | .error e => ({ st with pagesFetched := st.pagesFetched + 1 }, some e)
    | .ok subs =>
      let st := { st with pagesFetched := st.pagesFetched + 1 }
      if subs.isEmpty then (st, none)
      else
        let st := subs.foldl (processSub c T) st
        let page := page + 1
        if 10000 < page then ({ st with warnedCeiling := true }, none)
        else reconcileLoop c T fetch fuel page st

/-- `ENUMClient.reconcile_all` (lines 387-486): the `enabled`
short-circuit, the pagination loop starting at page 0, the sweep-level
`except Exception` handler (status `'error'`, diagnostic appended), and
the final `if results['failed'] > 0: results['status'] = 'partial'`. -/
def reconcile_all (c : ENUMClient) (T : TransportFn) (fetch : FetchFn) : RecResult :=
  if c.enabled = false then
    ⟨"disabled", 0, 0, 0, [], [], 0, false⟩
  else
    let r := reconcileLoop c T fetch 10001 0 ⟨"ok", 0, 0, 0, [], [], 0, false⟩
    let st :=
      match r.2 with
      | some e =>
        { r.1 with
            status := "error",
            errors := r.1.errors ++ ["Reconciliation failed: " ++ e] }
      | none => r.1
    if st.failed > 0 then { st with status := "partial" } else st

/-- Comparison definition written from the spec's words for `toEnumName`:
the reverse of the digit string joined with dots, followed by a dot and
the domain unchanged. -/
def enumNameSpec (d domain : String) : String :=
  ⟨(d.data.reverse.intersperse '.') ++ '.' :: domain.data⟩

/-- A normalized MSISDN as the parser is supposed to produce it:
non-empty and digit-only. -/
def goodMsisdn (x : String) : Prop :=
  x ≠ "" ∧ ∀ ch ∈ x.data, ch.isDigit = true

instance (x : String) : Decidable (goodMsisdn x) := by
  unfold goodMsisdn; infer_instance

/-- A subscriber source backed by a fixed page list: page `p` of the
population, empty past the end (the shape `getAllPaginated` produces for
a stable store). -/
def pagedFetch (pages : List (List Subscriber)) : FetchFn :=
  fun p _ => .ok (pages.getD p [])

/-- The `to_delete = old_set - new_set` computation of
`update_enum_entries` (lines 339-342), on the deduplicated parse lists. -/
def updToDelete (o ol n nl : Option String) : List String :=
  (_parse_msisdn_list o ol).filter fun x => x ∉ _parse_msisdn_list n nl

/-- The `to_create = new_set - old_set` computation of
`update_enum_entries` (lines 339-343). -/
def updToCreate (o ol n nl : Option String) : List String :=
  (_parse_msisdn_list n nl).filter fun x => x ∉ _parse_msisdn_list o ol

/-- A concrete endpoint used by the witness runs: one PowerDNS backend
named `ep1` serving two domains. -/
def epA : Endpoint :=
  ⟨some "ep1", none, "key", some "ims.test", ["d1", "d2"]⟩

/-- Concrete configuration: enabled, lenient, no endpoints configured. -/
def cfgNoEp : ENUMClient := ⟨true, false, 10, 10, 3600, []⟩

/-- Concrete configuration: enabled, strict mode, one endpoint. -/
def cfgStrict : ENUMClient := ⟨true, true, 10, 10, 3600, [epA]⟩

/-- Concrete configuration: engine administratively disabled. -/
def cfgDisabled : ENUMClient := ⟨false, false, 10, 10, 3600, [epA]⟩

/-- Transport stub that accepts every request. -/
def TOk : TransportFn := fun _ _ _ => (true, none)

/-- Transport stub that fails every request with detail `"boom"`. -/
def TFail : TransportFn := fun _ _ _ => (false, some "boom")

/-- The `(endpoint_name, domain)` pairs in the order the create/delete
double loop visits them. -/
def pairsOf (es : List Endpoint) : List (String × String) :=
  es.flatMap fun e => e.domains.map fun d => (endpointName e, d)

/-- A concrete IMS subscriber row with one MSISDN. -/
def subA : Subscriber := ⟨some "111", none, some "1"⟩

/-- A second concrete subscriber row. -/
def subB : Subscriber := ⟨some "222", none, some "2"⟩

/-- A subscriber source that never returns an empty page. -/
def fetchAlways : FetchFn := fun _ _ => .ok [subA]

/-- A subscriber source that serves one page and then becomes
unreachable (raises) on the second `getAllPaginated` call. -/
def fetchThenDown : FetchFn :=
  fun p _ => if p = 0 then .ok [subA] else .error "db down"

/-! Codec lemmas (claims C6 and C10). -/

theorem digit_not_whitespace {c : Char} (h : c.isDigit = true) :
    c.isWhitespace = false := by
  by_contra hw
  rw [Bool.not_eq_false] at hw
  simp only [Char.isWhitespace, Bool.or_eq_true, decide_eq_true_eq] at hw
  rcases hw with ((rfl | rfl) | rfl) | rfl <;> simp [Char.isDigit] at h

theorem joinDot_eq_intersperse : ∀ l : List Char, joinDot l = l.intersperse '.'
  | [] => rfl
  | [_] => rfl
  | c :: c' :: rest => by
    have ih := joinDot_eq_intersperse (c' :: rest)
    simp [joinDot, ih, List.intersperse]

/-- Claim C6 (amended): for every digit-only string `d` and every domain,
`msisdn_to_enum_name d domain` is the reverse of `d`'s digits joined with
dots, followed by a dot and the domain unchanged.  (The numeric example
the claim cites is corrected separately: the 12-digit input
`"491721234567"` maps to the 12-label name
`"7.6.5.4.3.2.1.2.7.1.9.4.e164.arpa"`.) -/
theorem enum_C6_amended (d domain : String)
    (h : ∀ ch ∈ d.data, ch.isDigit = true) :
    msisdn_to_enum_name d domain = enumNameSpec d domain := by
  simp only [msisdn_to_enum_name, enumNameSpec]
  rw [List.filter_eq_self.mpr h, joinDot_eq_intersperse]

/-- Witness for C6: the digit-only hypothesis holds for `"491721234567"`,
and the amended equation applies there, with the spec-side value computed
explicitly. -/
theorem enum_C6_witness :
    ("491721234567" : String).data.all Char.isDigit = true ∧
      msisdn_to_enum_name "491721234567" "e164.arpa" =
        enumNameSpec "491721234567" "e164.arpa" ∧
      enumNameSpec "491721234567" "e164.arpa" =
        "7.6.5.4.3.2.1.2.7.1.9.4.e164.arpa" :=
  ⟨by decide, enum_C6_amended "491721234567" "e164.arpa" (by decide), by decide⟩

/-- Counterexample for C6 as stated: on the claim's own example input the
code produces the full 12-label reversal, not the 11-label string the
claim gives. -/
theorem enum_C6_counterexample :
    msisdn_to_enum_name "491721234567" "e164.arpa" =
        "7.6.5.4.3.2.1.2.7.1.9.4.e164.arpa" ∧
      ("7.6.5.4.3.2.1.2.7.1.9.4.e164.arpa" : String) ≠
        "7.6.5.4.3.2.1.7.2.9.4.e164.arpa" := by
  constructor
  · rfl
  · decide

/-- Claim C10: on an input with no digit characters (the empty string
included) `msisdn_to_enum_name` returns `"." ++ domain` — an empty
leading label in front of the domain — rather than the domain alone or
an error. -/
theorem enum_C10 (s domain : String)
    (h : ∀ ch ∈ s.data, ch.isDigit = false) :
    msisdn_to_enum_name s domain = "." ++ domain := by
  obtain ⟨dd⟩ := domain
  simp only [msisdn_to_enum_name]
  rw [List.filter_eq_nil_iff.mpr (fun a ha => by simp [h a ha])]
  rfl

/-- Witness for C10 at a concrete digit-free input. -/
theorem enum_C10_witness :
    ("ab+!" : String).data.all (fun ch => ! ch.isDigit) = true ∧
      msisdn_to_enum_name "ab+!" "e164.arpa" = "." ++ "e164.arpa" :=
  ⟨by decide, enum_C10 "ab+!" "e164.arpa" (by decide)⟩

/-! Parser lemmas (claim C7, also used by C1). -/

theorem parseFold_inv (entries : List (List Char)) :
    ∀ acc : List String, acc.Nodup → (∀ x ∈ acc, goodMsisdn x) →
      ∃ ext, parseFold acc entries = acc ++ ext ∧
        (parseFold acc entries).Nodup ∧
        ∀ x ∈ parseFold acc entries, goodMsisdn x := by
  induction entries with
  | nil =>
    intro acc hnd hgood
    exact ⟨[], by simp [parseFold], by simpa [parseFold] using hnd,
      by simpa [parseFold] using hgood⟩
  | cons mc rest ih =>
    intro acc hnd hgood
    simp only [parseFold]
    by_cases hP : (⟨(pyStrip mc).filter Char.isDigit⟩ : String) ≠ "" ∧
        (⟨(pyStrip mc).filter Char.isDigit⟩ : String) ∉ acc
    · rw [if_pos hP]
      have hnd' : (acc ++ [(⟨(pyStrip mc).filter Char.isDigit⟩ : String)]).Nodup := by
        simp [List.nodup_append, hnd, hP.2]
      have hgood' : ∀ x ∈ acc ++ [(⟨(pyStrip mc).filter Char.isDigit⟩ : String)],
          goodMsisdn x := by
        intro x hx
        rcases List.mem_append.mp hx with hx | hx
        · exact hgood x hx
        · rcases List.mem_singleton.mp hx with rfl
          refine ⟨hP.1, ?_⟩
          intro ch hch
          exact List.of_mem_filter hch
      obtain ⟨ext, hext, hnd2, hgood2⟩ := ih _ hnd' hgood'
      exact ⟨(⟨(pyStrip mc).filter Char.isDigit⟩ : String) :: ext,
        by rw [hext]; simp, hnd2, hgood2⟩
    · rw [if_neg hP]
      exact ih acc hnd hgood

theorem parsePrimary_inv (m : Option String) :
    (parsePrimary m).Nodup ∧ ∀ x ∈ parsePrimary m, goodMsisdn x := by
  rcases m with _ | pm
  · simp [parsePrimary]
  · simp only [parsePrimary]
    split
    · split
      · rename_i hclean
        refine ⟨List.nodup_singleton _, ?_⟩
        intro x hx
        rcases List.mem_singleton.mp hx with rfl
        exact ⟨hclean, fun ch hch => List.of_mem_filter hch⟩
      · simp
    · simp

theorem parse_inv (m ml : Option String) :
    ∃ ext, _parse_msisdn_list m ml = parsePrimary m ++ ext ∧
      (_parse_msisdn_list m ml).Nodup ∧
      ∀ x ∈ _parse_msisdn_list m ml, goodMsisdn x := by
  obtain ⟨hnd, hgood⟩ := parsePrimary_inv m
  rcases ml with _ | pml
  · exact ⟨[], by simp [_parse_msisdn_list], by simpa [_parse_msisdn_list] using hnd,
      by simpa [_parse_msisdn_list] using hgood⟩
  · simp only [_parse_msisdn_list]
    split
    · exact parseFold_inv _ _ hnd hgood
    · exact ⟨[], by simp, hnd, hgood⟩

/-- Claim C7: the parsed MSISDN collection has no duplicates, contains
only non-empty digit-only strings, and when the normalized primary is
non-empty it is the first element. -/
theorem enum_C7 (m ml : Option String) :
    (_parse_msisdn_list m ml).Nodup ∧
      (∀ x ∈ _parse_msisdn_list m ml, x ≠ "" ∧ ∀ ch ∈ x.data, ch.isDigit = true) ∧
      ∀ pm, m = some pm → cleanDigits pm ≠ "" →
        (_parse_msisdn_list m ml).head? = some (cleanDigits pm) := by
  obtain ⟨ext, hext, hnd, hgood⟩ := parse_inv m ml
  refine ⟨hnd, fun x hx => hgood x hx, ?_⟩
  rintro pm rfl hclean
  have hpm : pm ≠ "" := by
    intro h
    subst h
    exact hclean rfl
  have hbase : parsePrimary (some pm) = [cleanDigits pm] := by
    simp [parsePrimary, hpm, hclean]
  rw [hext, hbase]
  simp

/-- Witness for C7's primary-first conclusion at a concrete input: the
primary `"+491"` normalizes to `"491"` and heads the parsed list even
with a duplicating, messy additional list. -/
theorem enum_C7_witness :
    cleanDigits "+491" ≠ "" ∧
      (_parse_msisdn_list (some "+491") (some "222, abc ,222,333")).head? =
        some (cleanDigits "+491") :=
  ⟨by decide, (enum_C7 (some "+491") (some "222, abc ,222,333")).2.2 "+491" rfl (by decide)⟩

/-! Split/join roundtrip (claim C1): a comma-joined list of non-empty
digit-only strings parses back to exactly that list. -/

theorem splitOnComma_ne_nil : ∀ s : List Char, splitOnComma s ≠ []
  | [] => by simp [splitOnComma]
  | c :: rest => by
    have ih := splitOnComma_ne_nil rest
    simp only [splitOnComma]
    split
    · simp
    · match hr : splitOnComma rest with
      | [] => simp
      | g :: gs => simp

theorem splitOnComma_no_comma : ∀ s : List Char, ',' ∉ s → splitOnComma s = [s]
  | [], _ => rfl
  | c :: rest, h => by
    have hc : ¬ c = ',' := fun hc => h (hc ▸ List.mem_cons_self c rest)
    have ih := splitOnComma_no_comma rest (fun hm => h (List.mem_cons_of_mem c hm))
    simp only [splitOnComma, if_neg hc, ih]

theorem splitOnComma_append : ∀ s t : List Char, ',' ∉ s →
    splitOnComma (s ++ ',' :: t) = s :: splitOnComma t
  | [], t, _ => by simp [splitOnComma]
  | c :: rest, t, h => by
    have hc : ¬ c = ',' := fun hc => h (hc ▸ List.mem_cons_self c rest)
    have ih := splitOnComma_append rest t (fun hm => h (List.mem_cons_of_mem c hm))
    simp only [List.cons_append, splitOnComma, if_neg hc, List.append_eq, ih]

theorem splitOnComma_joinCommaL : ∀ l : List String, l ≠ [] →
    (∀ x ∈ l, ',' ∉ x.data) →
    splitOnComma (joinCommaL l) = l.map String.data
  | [], h, _ => absurd rfl h
  | [m], _, hc => by
    simp only [joinCommaL, List.map]
    exact splitOnComma_no_comma m.data (hc m (List.mem_singleton_self m))
  | m :: m' :: rest, _, hc => by
    have ih := splitOnComma_joinCommaL (m' :: rest) (by simp)
      (fun x hx => hc x (List.mem_cons_of_mem m hx))
    simp only [joinCommaL]
    rw [splitOnComma_append m.data _ (hc m (List.mem_cons_self m (m' :: rest))), ih]
    rfl

theorem filter_digit_dropWhile_ws (s : List Char) :
    (s.dropWhile Char.isWhitespace).filter Char.isDigit = s.filter Char.isDigit := by
  induction s with
  | nil => rfl
  | cons c rest ih =>
    by_cases hw : c.isWhitespace = true
    · have hd : c.isDigit = false := by
        by_contra hdd
        rw [Bool.not_eq_false] at hdd
        rw [digit_not_whitespace hdd] at hw
        exact Bool.false_ne_true hw
      rw [List.dropWhile_cons_of_pos hw, ih, List.filter_cons_of_neg (by simp [hd])]
    · rw [List.dropWhile_cons_of_neg hw]

theorem filter_digit_pyStrip (s : List Char) :
    (pyStrip s).filter Char.isDigit = s.filter Char.isDigit := by
  unfold pyStrip
  rw [List.filter_reverse, filter_digit_dropWhile_ws, List.filter_reverse,
    List.reverse_reverse, filter_digit_dropWhile_ws]

theorem goodMsisdn_no_comma {x : String} (h : goodMsisdn x) : ',' ∉ x.data := by
  intro hm
  have := h.2 ',' hm
  simp [Char.isDigit] at this

theorem parseFold_of_good : ∀ (l : List String) (acc : List String),
    (∀ x ∈ l, goodMsisdn x) → l.Nodup → (∀ x ∈ l, x ∉ acc) →
    parseFold acc (l.map String.data) = acc ++ l
  | [], acc, _, _, _ => by simp [parseFold]
  | x :: rest, acc, hgood, hnd, hdisj => by
    have hx : goodMsisdn x := hgood x (List.mem_cons_self x rest)
    have hclean : (⟨(pyStrip x.data).filter Char.isDigit⟩ : String) = x := by
      rw [filter_digit_pyStrip, List.filter_eq_self.mpr hx.2]
    simp only [List.map, parseFold, hclean]
    rw [if_pos ⟨hx.1, hdisj x (List.mem_cons_self x rest)⟩]
    have ih := parseFold_of_good rest (acc ++ [x])
      (fun y hy => hgood y (List.mem_cons_of_mem x hy))
      (List.Nodup.of_cons hnd)
      (fun y hy => by
        intro hyacc
        rcases List.mem_append.mp hyacc with h1 | h1
        · exact hdisj y (List.mem_cons_of_mem x hy) h1
        · rcases List.mem_singleton.mp h1 with rfl
          exact (List.nodup_cons.mp hnd).1 hy)
    rw [ih]
    simp

theorem joinComma_ne_empty {l : List String} (hne : l ≠ [])
    (hgood : ∀ x ∈ l, x ≠ "") : joinComma l ≠ "" := by
  match l, hne with
  | [m], _ =>
    simp only [joinComma, joinCommaL]
    intro h
    exact hgood m (List.mem_singleton_self m) (by
      cases m
      simpa [String.ext_iff] using h)
  | m :: m' :: rest, _ =>
    simp only [joinComma, joinCommaL]
    intro h
    simp [String.ext_iff] at h

/-- A deduplicated list of non-empty digit-only MSISDNs survives the
comma join followed by `_parse_msisdn_list` unchanged — this is what the
delete/create sub-calls of `update_enum_entries` do with the computed
difference sets. -/
theorem parse_joinComma {l : List String} (hne : l ≠ [])
    (hgood : ∀ x ∈ l, goodMsisdn x) (hnd : l.Nodup) :
    _parse_msisdn_list none (some (joinComma l)) = l := by
  simp only [_parse_msisdn_list]
  rw [if_pos (joinComma_ne_empty hne (fun x hx => (hgood x hx).1))]
  have hsplit : splitOnComma (joinComma l).data = l.map String.data :=
    splitOnComma_joinCommaL l hne (fun x hx => goodMsisdn_no_comma (hgood x hx))
  rw [hsplit]
  have := parseFold_of_good l (parsePrimary none) hgood hnd (by simp [parsePrimary])
  simpa [parsePrimary] using this

/-! Update sub-call analysis (claim C1). -/

theorem updDeletePhase_subcalls (c : ENUMClient) (T : TransportFn) (td : List String) :
    (updDeletePhase c T td).subcalls =
      if td = [] then [] else [("delete", joinComma td)] := by
  unfold updDeletePhase
  split
  · rfl
  · rcases h : delete_enum_entries c T none (some (joinComma td)) with ⟨msg, att⟩ | ⟨r, att⟩ <;>
      simp [h]

theorem updCreatePhase_subcalls (c : ENUMClient) (T : TransportFn) (tc : List String) :
    (updCreatePhase c T tc).subcalls =
      if tc = [] then [] else [("create", joinComma tc)] := by
  unfold updCreatePhase
  split
  · rfl
  · rcases h : create_enum_entries c T none (some (joinComma tc)) with ⟨msg, att⟩ | ⟨r, att⟩ <;>
      simp [h]

theorem update_subcalls_spec (c : ENUMClient) (T : TransportFn)
    (o ol n nl : Option String) (hen : c.enabled = true) :
    (update_enum_entries c T o ol n nl).subcalls =
        (updDeletePhase c T (updToDelete o ol n nl)).subcalls ∨
      (update_enum_entries c T o ol n nl).subcalls =
        (updDeletePhase c T (updToDelete o ol n nl)).subcalls ++
          (updCreatePhase c T (updToCreate o ol n nl)).subcalls := by
  simp only [update_enum_entries, hen, Bool.true_eq_false, if_false]
  cases hd : (updDeletePhase c T (updToDelete o ol n nl)).raised with
  | some msg =>
    left
    simp only [updToDelete, updToCreate] at hd ⊢
    rw [hd]
  | none =>
    right
    simp only [updToDelete, updToCreate] at hd ⊢
    rw [hd]
    cases hc : (updCreatePhase c T
        ((_parse_msisdn_list n nl).filter fun x => x ∉ _parse_msisdn_list o ol)).raised with
    | some msg => rfl
    | none => rfl

/-- Claim C1: `update_enum_entries` computes `to_delete` as the set
difference `oldSet - newSet` and `to_create` as `newSet - oldSet` over
the parsed/normalized inputs, the delete sub-call acts on exactly
`to_delete` and the create sub-call on exactly `to_create` (the
comma-joined argument re-parses to the very same set), no sub-call is
made when the two sets are equal, and the delete sub-call is made
whenever `to_delete` is non-empty. -/
theorem enum_C1 (c : ENUMClient) (T : TransportFn) (o ol n nl : Option String)
    (hen : c.enabled = true) :
    (∀ x, x ∈ updToDelete o ol n nl ↔
        x ∈ _parse_msisdn_list o ol ∧ x ∉ _parse_msisdn_list n nl) ∧
      (∀ x, x ∈ updToCreate o ol n nl ↔
        x ∈ _parse_msisdn_list n nl ∧ x ∉ _parse_msisdn_list o ol) ∧
      (∀ arg, ("delete", arg) ∈ (update_enum_entries c T o ol n nl).subcalls →
        _parse_msisdn_list none (some arg) = updToDelete o ol n nl) ∧
      (∀ arg, ("create", arg) ∈ (update_enum_entries c T o ol n nl).subcalls →
        _parse_msisdn_list none (some arg) = updToCreate o ol n nl) ∧
      ((∀ x, x ∈ _parse_msisdn_list o ol ↔ x ∈ _parse_msisdn_list n nl) →
        (update_enum_entries c T o ol n nl).subcalls = []) ∧
      (updToDelete o ol n nl ≠ [] →
        ("delete", joinComma (updToDelete o ol n nl)) ∈
          (update_enum_entries c T o ol n nl).subcalls) := by
  obtain ⟨_, _, hndo, hgo⟩ := parse_inv o ol
  obtain ⟨_, _, hndn, hgn⟩ := parse_inv n nl
  have htdgood : ∀ x ∈ updToDelete o ol n nl, goodMsisdn x :=
    fun x hx => hgo x (List.mem_of_mem_filter hx)
  have htcgood : ∀ x ∈ updToCreate o ol n nl, goodMsisdn x :=
    fun x hx => hgn x (List.mem_of_mem_filter hx)
  have htdnd : (updToDelete o ol n nl).Nodup := List.Nodup.filter _ hndo
  have htcnd : (updToCreate o ol n nl).Nodup := List.Nodup.filter _ hndn
  have hsub := update_subcalls_spec c T o ol n nl hen
  have hds := updDeletePhase_subcalls c T (updToDelete o ol n nl)
  have hcs := updCreatePhase_subcalls c T (updToCreate o ol n nl)
  refine ⟨?_, ?_, ?_, ?_, ?_, ?_⟩
  · intro x
    simp [updToDelete, List.mem_filter]
  · intro x
    simp [updToCreate, List.mem_filter]
  · intro arg harg
    have harg2 : ("delete", arg) ∈ (updDeletePhase c T (updToDelete o ol n nl)).subcalls := by
      rcases hsub with h1 | h1
      · rwa [h1] at harg
      · rw [h1] at harg
        rcases List.mem_append.mp harg with h2 | h2
        · exact h2
        · exfalso
          rw [hcs] at h2
          by_cases htc : updToCreate o ol n nl = []
          · rw [if_pos htc] at h2
            simp at h2
          · rw [if_neg htc] at h2
            have := List.mem_singleton.mp h2
            simp at this
    rw [hds] at harg2
    by_cases htd : updToDelete o ol n nl = []
    · rw [if_pos htd] at harg2
      simp at harg2
    · rw [if_neg htd] at harg2
      have harg3 := List.mem_singleton.mp harg2
      have : arg = joinComma (updToDelete o ol n nl) := by
        simpa using congrArg Prod.snd harg3
      rw [this]
      exact parse_joinComma htd htdgood htdnd
  · intro arg harg
    have harg2 : ("create", arg) ∈ (updCreatePhase c T (updToCreate o ol n nl)).subcalls := by
      rcases hsub with h1 | h1
      · exfalso
        rw [h1, hds] at harg
        by_cases htd : updToDelete o ol n nl = []
        · rw [if_pos htd] at harg
          simp at harg
        · rw [if_neg htd] at harg
          have := List.mem_singleton.mp harg
          simp at this
      · rw [h1] at harg
        rcases List.mem_append.mp harg with h2 | h2
        · exfalso
          rw [hds] at h2
          by_cases htd : updToDelete o ol n nl = []
          · rw [if_pos htd] at h2
            simp at h2
          · rw [if_neg htd] at h2
            have := List.mem_singleton.mp h2
            simp at this
        · exact h2
    rw [hcs] at harg2
    by_cases htc : updToCreate o ol n nl = []
    · rw [if_pos htc] at harg2
      simp at harg2
    · rw [if_neg htc] at harg2
      have harg3 := List.mem_singleton.mp harg2
      have : arg = joinComma (updToCreate o ol n nl) := by
        simpa using congrArg Prod.snd harg3
      rw [this]
      exact parse_joinComma htc htcgood htcnd
  · intro heq
    have htd0 : updToDelete o ol n nl = [] := by
      apply List.filter_eq_nil_iff.mpr
      intro x hx
      simp [(heq x).mp hx]
    have htc0 : updToCreate o ol n nl = [] := by
      apply List.filter_eq_nil_iff.mpr
      intro x hx
      simp [(heq x).mpr hx]
    rcases hsub with h1 | h1
    · rw [h1, hds, if_pos htd0]
    · rw [h1, hds, hcs, if_pos htd0, if_pos htc0]
      rfl
  · intro htd
    rcases hsub with h1 | h1
    · rw [h1, hds, if_neg htd]
      exact List.mem_singleton_self _
    · rw [h1]
      apply List.mem_append_left
      rw [hds, if_neg htd]
      exact List.mem_singleton_self _

/-- Witness for C1: the claim's own inputs, `old = {"111","222"}` (primary
`"111"`, list `"222"`) and `new = {"333"}`; `to_delete` and `to_create`
come out as the claim demands, and the conclusions of `enum_C1` hold for
a concrete enabled configuration. -/
theorem enum_C1_witness :
    cfgNoEp.enabled = true ∧
      updToDelete (some "111") (some "222") (some "333") none = ["111", "222"] ∧
      updToCreate (some "111") (some "222") (some "333") none = ["333"] ∧
      ("delete", joinComma (updToDelete (some "111") (some "222") (some "333") none)) ∈
        (update_enum_entries cfgNoEp TOk (some "111") (some "222")
          (some "333") none).subcalls :=
  ⟨rfl, by decide, by decide,
    (enum_C1 cfgNoEp TOk (some "111") (some "222") (some "333") none rfl).2.2.2.2.2
      (by decide)⟩

/-! Strict-mode fail-fast analysis (claims C2 and C3). -/

theorem runDomains_strict (c : ENUMClient) (T : TransportFn) (failMsg : String)
    (e : Endpoint) (ename : String) (buildRR : String → List RRset)
    (msisdns : List String) (hstrict : c.strict_mode = true) :
    ∀ (doms : List String) (acc : OpAcc),
      (∀ acc', runDomains c T failMsg e ename buildRR msisdns doms acc = .ok acc' →
        acc'.errors = acc.errors ∧
        acc'.attempts = acc.attempts ++ doms.map (fun d => (ename, d)) ∧
        ∀ d ∈ doms, (T e d (buildRR d)).1 = true) ∧
      (∀ msg acc', runDomains c T failMsg e ename buildRR msisdns doms acc =
          .error (msg, acc') →
        ∃ pre d rest detail, doms = pre ++ d :: rest ∧
          acc'.attempts = acc.attempts ++ pre.map (fun d' => (ename, d')) ++ [(ename, d)] ∧
          msg = failMsg ++ (ename ++ "/" ++ d ++ ": " ++ detail)) := by
  intro doms
  induction doms with
  | nil =>
    intro acc
    constructor
    · intro acc' h
      rw [runDomains] at h
      cases h
      simp
    · intro msg acc' h
      rw [runDomains] at h
      cases h
  | cons d rest ih =>
    intro acc
    by_cases htr : (T e d (buildRR d)).1 = true
    · have hstep : runDomains c T failMsg e ename buildRR msisdns (d :: rest) acc =
          runDomains c T failMsg e ename buildRR msisdns rest
            ⟨acc.outcomes ++ [⟨ename, d, (T e d (buildRR d)).1, msisdns⟩],
             acc.errors, acc.attempts ++ [(ename, d)]⟩ := by
        rw [runDomains]
        simp only [htr, if_true]
      constructor
      · intro acc' h
        rw [hstep] at h
        obtain ⟨he, ha, hs⟩ := (ih _).1 acc' h
        refine ⟨he, ?_, ?_⟩
        · rw [ha]
          simp
        · intro d' hd'
          rcases List.mem_cons.mp hd' with rfl | hd'
          · exact htr
          · exact hs d' hd'
      · intro msg acc' h
        rw [hstep] at h
        obtain ⟨pre, d', rest', detail, hdoms, ha, hmsg⟩ := (ih _).2 msg acc' h
        refine ⟨d :: pre, d', rest', detail, by rw [hdoms]; simp, ?_, hmsg⟩
        rw [ha]
        simp
    · have hstep : runDomains c T failMsg e ename buildRR msisdns (d :: rest) acc =
          .error (failMsg ++ (ename ++ "/" ++ d ++ ": " ++ optStr (T e d (buildRR d)).2),
            ⟨acc.outcomes ++ [⟨ename, d, (T e d (buildRR d)).1, msisdns⟩],
             acc.errors ++ [ename ++ "/" ++ d ++ ": " ++ optStr (T e d (buildRR d)).2],
             acc.attempts ++ [(ename, d)]⟩) := by
        rw [runDomains]
        simp [htr, hstrict]
      constructor
      · intro acc' h
        rw [hstep] at h
        cases h
      · intro msg acc' h
        rw [hstep] at h
        injection h with h1
        injection h1 with hmsg hacc
        refine ⟨[], d, rest, optStr (T e d (buildRR d)).2, by simp, ?_, hmsg.symm⟩
        rw [← hacc]
        simp

theorem runEndpoints_strict (c : ENUMClient) (T : TransportFn) (failMsg : String)
    (buildRR : Endpoint → String → List RRset) (msisdns : List String)
    (hstrict : c.strict_mode = true) :
    ∀ (es : List Endpoint) (acc : OpAcc),
      (∀ acc', runEndpoints c T failMsg buildRR msisdns es acc = .ok acc' →
        acc'.errors = acc.errors ∧
        acc'.attempts = acc.attempts ++ pairsOf es ∧
        ∀ e ∈ es, ∀ d ∈ e.domains, (T e d (buildRR e d)).1 = true) ∧
      (∀ msg acc', runEndpoints c T failMsg buildRR msisdns es acc = .error (msg, acc') →
        ∃ preAtt en d detail rest,
          acc'.attempts = acc.attempts ++ preAtt ++ [(en, d)] ∧
          pairsOf es = preAtt ++ [(en, d)] ++ rest ∧
          msg = failMsg ++ (en ++ "/" ++ d ++ ": " ++ detail)) := by
  intro es
  induction es with
  | nil =>
    intro acc
    constructor
    · intro acc' h
      rw [runEndpoints] at h
      cases h
      simp [pairsOf]
    · intro msg acc' h
      rw [runEndpoints] at h
      cases h
  | cons e rest ih =>
    intro acc
    have hpairs : pairsOf (e :: rest) =
        (e.domains.map fun d => (endpointName e, d)) ++ pairsOf rest := by
      simp [pairsOf]
    cases hd : runDomains c T failMsg e (endpointName e) (buildRR e) msisdns e.domains acc with
    | error x =>
      obtain ⟨msg0, acc0⟩ := x
      have hstep : runEndpoints c T failMsg buildRR msisdns (e :: rest) acc =
          .error (msg0, acc0) := by
        rw [runEndpoints, hd]
      obtain ⟨pre, d', rest_d, detail, hdoms, ha, hmsg⟩ :=
        (runDomains_strict c T failMsg e (endpointName e) (buildRR e) msisdns hstrict
          e.domains acc).2 msg0 acc0 hd
      constructor
      · intro acc' h
        rw [hstep] at h
        cases h
      · intro msg acc' h
        rw [hstep] at h
        injection h with h1
        injection h1 with h2 h3
        refine ⟨pre.map fun dd => (endpointName e, dd), endpointName e, d', detail,
          rest_d.map (fun dd => (endpointName e, dd)) ++ pairsOf rest, ?_, ?_, h2 ▸ hmsg⟩
        · subst h3
          rw [ha]
        · rw [hpairs, hdoms]
          simp
    | ok acc1 =>
      have hstep : runEndpoints c T failMsg buildRR msisdns (e :: rest) acc =
          runEndpoints c T failMsg buildRR msisdns rest acc1 := by
        rw [runEndpoints, hd]
      obtain ⟨he1, ha1, hs1⟩ :=
        (runDomains_strict c T failMsg e (endpointName e) (buildRR e) msisdns hstrict
          e.domains acc).1 acc1 hd
      constructor
      · intro acc' h
        rw [hstep] at h
        obtain ⟨he2, ha2, hs2⟩ := (ih acc1).1 acc' h
        refine ⟨he2.trans he1, ?_, ?_⟩
        · rw [ha2, ha1, hpairs]
          simp
        · intro e' he' d' hd'
          rcases List.mem_cons.mp he' with rfl | he'
          · exact hs1 d' hd'
          · exact hs2 e' he' d' hd'
      · intro msg acc' h
        rw [hstep] at h
        obtain ⟨preAtt, en, d', detail, restP, ha2, hp2, hmsg⟩ := (ih acc1).2 msg acc' h
        refine ⟨(e.domains.map fun dd => (endpointName e, dd)) ++ preAtt, en, d', detail,
          restP, ?_, ?_, hmsg⟩
        · rw [ha2, ha1]
          simp
        · rw [hpairs, hp2]
          simp

theorem runOp_strict (c : ENUMClient) (T : TransportFn) (failMsg : String)
    (buildRR : List String → Endpoint → String → List RRset)
    (m ml : Option String) (hstrict : c.strict_mode = true) :
    (∀ msg att, runOp c T failMsg buildRR m ml = .error (msg, att) →
      ∃ preAtt en d detail rest,
        att = preAtt ++ [(en, d)] ∧
        pairsOf c.endpoints = preAtt ++ [(en, d)] ++ rest ∧
        msg = failMsg ++ (en ++ "/" ++ d ++ ": " ++ detail)) ∧
    (∀ r att, runOp c T failMsg buildRR m ml = .ok (r, att) →
      r.errors = [] ∧ r.status ≠ "partial" ∧
      (c.enabled = true → _parse_msisdn_list m ml ≠ [] →
        ∀ e ∈ c.endpoints, ∀ d ∈ e.domains,
          (T e d (buildRR (_parse_msisdn_list m ml) e d)).1 = true)) := by
  by_cases hen : c.enabled = false
  · have hrun : runOp c T failMsg buildRR m ml = .ok (⟨"disabled", [], []⟩, []) := by
      rw [runOp, if_pos hen]
    constructor
    · intro msg att h
      rw [hrun] at h
      cases h
    · intro r att h
      rw [hrun] at h
      injection h with h1
      injection h1 with h2 h3
      subst h2
      refine ⟨rfl, by decide, ?_⟩
      intro henT
      rw [hen] at henT
      cases henT
  · by_cases hall : _parse_msisdn_list m ml = []
    · have hrun : runOp c T failMsg buildRR m ml = .ok (⟨"no_msisdns", [], []⟩, []) := by
        rw [runOp, if_neg hen]
        simp only [hall, if_pos]
      constructor
      · intro msg att h
        rw [hrun] at h
        cases h
      · intro r att h
        rw [hrun] at h
        injection h with h1
        injection h1 with h2 h3
        subst h2
        exact ⟨rfl, by decide, fun _ hne => absurd hall hne⟩
    · have hrun : runOp c T failMsg buildRR m ml =
          (match runEndpoints c T failMsg (buildRR (_parse_msisdn_list m ml))
              (_parse_msisdn_list m ml) c.endpoints ⟨[], [], []⟩ with
            | .error (msg, acc) => .error (msg, acc.attempts)
            | .ok acc => .ok (⟨if acc.errors = [] then "ok" else "partial",
                acc.outcomes, acc.errors⟩, acc.attempts)) := by
        rw [runOp, if_neg hen]
        simp [hall]
      cases hre : runEndpoints c T failMsg (buildRR (_parse_msisdn_list m ml))
          (_parse_msisdn_list m ml) c.endpoints ⟨[], [], []⟩ with
      | error x =>
        obtain ⟨msg0, acc0⟩ := x
        obtain ⟨preAtt, en, d, detail, restP, ha, hp, hmsg⟩ :=
          (runEndpoints_strict c T failMsg (buildRR (_parse_msisdn_list m ml))
            (_parse_msisdn_list m ml) hstrict c.endpoints ⟨[], [], []⟩).2 msg0 acc0 hre
        constructor
        · intro msg att h
          rw [hrun, hre] at h
          injection h with h1
          injection h1 with h2 h3
          refine ⟨preAtt, en, d, detail, restP, ?_, hp, h2 ▸ hmsg⟩
          rw [← h3, ha]
          simp
        · intro r att h
          rw [hrun, hre] at h
          cases h
      | ok acc0 =>
        obtain ⟨he, ha, hs⟩ :=
          (runEndpoints_strict c T failMsg (buildRR (_parse_msisdn_list m ml))
            (_parse_msisdn_list m ml) hstrict c.endpoints ⟨[], [], []⟩).1 acc0 hre
        constructor
        · intro msg att h
          rw [hrun, hre] at h
          cases h
        · intro r att h
          rw [hrun, hre] at h
          injection h with h1
          injection h1 with h2 h3
          subst h2
          have herr : acc0.errors = [] := he
          refine ⟨by simp [herr], by simp [herr], ?_⟩
          intro _ _ e hee dd hdd
          exact hs e hee dd hdd

/-- Claim C2: with strict mode on, a create or delete call either raises
an `ENUMManagementError` whose message carries the formatted
`"<endpoint>/<domain>: <detail>"` string for the failing pair — which is
the last pair attempted, the attempts being a prefix of the configured
(endpoint, domain) order, so no later pair is attempted — or it returns
with an empty error list (status never `partial`), and in the latter case
every configured transport attempt succeeded; hence a call in which some
attempt fails can only take the raising branch, never returning `ok` or
`partial` to the caller. -/
theorem enum_C2 (c : ENUMClient) (T : TransportFn) (m ml : Option String)
    (hstrict : c.strict_mode = true) :
    ((∀ msg att, create_enum_entries c T m ml = .error (msg, att) →
        ∃ preAtt en d detail rest,
          att = preAtt ++ [(en, d)] ∧
          pairsOf c.endpoints = preAtt ++ [(en, d)] ++ rest ∧
          msg = "ENUM creation failed: " ++ (en ++ "/" ++ d ++ ": " ++ detail)) ∧
      (∀ r att, create_enum_entries c T m ml = .ok (r, att) →
        r.errors = [] ∧ r.status ≠ "partial" ∧
        (c.enabled = true → _parse_msisdn_list m ml ≠ [] →
          ∀ e ∈ c.endpoints, ∀ d ∈ e.domains,
            (T e d (createRRsets c (_parse_msisdn_list m ml) e d)).1 = true))) ∧
    ((∀ msg att, delete_enum_entries c T m ml = .error (msg, att) →
        ∃ preAtt en d detail rest,
          att = preAtt ++ [(en, d)] ∧
          pairsOf c.endpoints = preAtt ++ [(en, d)] ++ rest ∧
          msg = "ENUM deletion failed: " ++ (en ++ "/" ++ d ++ ": " ++ detail)) ∧
      (∀ r att, delete_enum_entries c T m ml = .ok (r, att) →
        r.errors = [] ∧ r.status ≠ "partial" ∧
        (c.enabled = true → _parse_msisdn_list m ml ≠ [] →
          ∀ e ∈ c.endpoints, ∀ d ∈ e.domains,
            (T e d (deleteRRsets (_parse_msisdn_list m ml) e d)).1 = true))) :=
  ⟨runOp_strict c T "ENUM creation failed: " (createRRsets c) m ml hstrict,
   runOp_strict c T "ENUM deletion failed: " deleteRRsets m ml hstrict⟩

/-- Witness for C2: a strict one-endpoint/two-domain configuration whose
transport always fails; the create call raises after the very first
attempt, and the existential shape promised by `enum_C2` holds there. -/
theorem enum_C2_witness :
    cfgStrict.strict_mode = true ∧
      create_enum_entries cfgStrict TFail (some "111") none =
        .error ("ENUM creation failed: ep1/d1: boom", [("ep1", "d1")]) ∧
      ∃ preAtt en d detail rest,
        [(("ep1" : String), ("d1" : String))] = preAtt ++ [(en, d)] ∧
        pairsOf cfgStrict.endpoints = preAtt ++ [(en, d)] ++ rest ∧
        "ENUM creation failed: ep1/d1: boom" =
          "ENUM creation failed: " ++ (en ++ "/" ++ d ++ ": " ++ detail) :=
  ⟨rfl, by decide,
    (enum_C2 cfgStrict TFail (some "111") none rfl).1.1
      "ENUM creation failed: ep1/d1: boom" [("ep1", "d1")] (by decide)⟩

/-- Counterexample for C3 as stated: with the engine enabled, a non-empty
MSISDN set and an empty endpoint list, a create call returns status `ok`
with an empty error list even though zero transport attempts were made —
the claim's "and at least one attempt was made" direction of the iff is
false on the code. -/
theorem enum_C3_counterexample :
    cfgNoEp.enabled = true ∧
      _parse_msisdn_list (some "111") none ≠ [] ∧
      create_enum_entries cfgNoEp TOk (some "111") none =
        .ok (⟨"ok", [], []⟩, []) := by
  refine ⟨rfl, by decide, by decide⟩

theorem runOp_status (c : ENUMClient) (T : TransportFn) (failMsg : String)
    (buildRR : List String → Endpoint → String → List RRset)
    (m ml : Option String) (hen : c.enabled = true)
    (hne : _parse_msisdn_list m ml ≠ []) :
    ∀ r att, runOp c T failMsg buildRR m ml = .ok (r, att) →
      (r.status = "ok" ↔ r.errors = []) ∧ (r.status = "partial" ↔ r.errors ≠ []) := by
  intro r att h
  have hen' : ¬ c.enabled = false := by simp [hen]
  have hrun : runOp c T failMsg buildRR m ml =
      (match runEndpoints c T failMsg (buildRR (_parse_msisdn_list m ml))
          (_parse_msisdn_list m ml) c.endpoints ⟨[], [], []⟩ with
        | .error (msg, acc) => .error (msg, acc.attempts)
        | .ok acc => .ok (⟨if acc.errors = [] then "ok" else "partial",
            acc.outcomes, acc.errors⟩, acc.attempts)) := by
    rw [runOp, if_neg hen']
    simp [hne]
  rw [hrun] at h
  cases hre : runEndpoints c T failMsg (buildRR (_parse_msisdn_list m ml))
      (_parse_msisdn_list m ml) c.endpoints ⟨[], [], []⟩ with
  | error x =>
    obtain ⟨msg0, acc0⟩ := x
    rw [hre] at h
    cases h
  | ok acc0 =>
    rw [hre] at h
    injection h with h1
    injection h1 with h2 h3
    subst h2
    by_cases herr : acc0.errors = []
    · simp [herr]
    · simp [herr]

/-- Claim C3 (amended): for a create or delete call that returns a result
with the engine enabled and a non-empty MSISDN set, the status is `ok`
if and only if the accumulated error list is empty, and `partial` if and
only if it is non-empty.  (The claim's extra requirement that `ok` needs
at least one transport attempt fails on the code: with no endpoints
configured, zero attempts still yield `ok` — see the counterexample.) -/
theorem enum_C3_amended (c : ENUMClient) (T : TransportFn) (m ml : Option String)
    (hen : c.enabled = true) (hne : _parse_msisdn_list m ml ≠ []) :
    (∀ r att, create_enum_entries c T m ml = .ok (r, att) →
      (r.status = "ok" ↔ r.errors = []) ∧ (r.status = "partial" ↔ r.errors ≠ [])) ∧
    (∀ r att, delete_enum_entries c T m ml = .ok (r, att) →
      (r.status = "ok" ↔ r.errors = []) ∧ (r.status = "partial" ↔ r.errors ≠ [])) :=
  ⟨runOp_status c T "ENUM creation failed: " (createRRsets c) m ml hen hne,
   runOp_status c T "ENUM deletion failed: " deleteRRsets m ml hen hne⟩

/-- Witness for C3 (amended) at a concrete returning call: strict off,
one endpoint with two domains, transport succeeding, so the call returns
`ok` with no errors, and the iff holds there. -/
theorem enum_C3_witness :
    (⟨true, false, 10, 10, 3600, [epA]⟩ : ENUMClient).enabled = true ∧
      _parse_msisdn_list (some "111") none ≠ [] ∧
      (((OpResult.mk "ok"
          [⟨"ep1", "d1", true, ["111"]⟩, ⟨"ep1", "d2", true, ["111"]⟩] []).status = "ok" ↔
        (OpResult.mk "ok"
          [⟨"ep1", "d1", true, ["111"]⟩, ⟨"ep1", "d2", true, ["111"]⟩] []).errors = []) ∧
       ((OpResult.mk "ok"
          [⟨"ep1", "d1", true, ["111"]⟩, ⟨"ep1", "d2", true, ["111"]⟩] []).status = "partial" ↔
        (OpResult.mk "ok"
          [⟨"ep1", "d1", true, ["111"]⟩, ⟨"ep1", "d2", true, ["111"]⟩] []).errors ≠ [])) :=
  ⟨rfl, by decide,
    (enum_C3_amended ⟨true, false, 10, 10, 3600, [epA]⟩ TOk (some "111") none rfl
        (by decide)).1
      (OpResult.mk "ok" [⟨"ep1", "d1", true, ["111"]⟩, ⟨"ep1", "d2", true, ["111"]⟩] [])
      [("ep1", "d1"), ("ep1", "d2")] (by decide)⟩

/-- Claim C8: with the engine disabled, create, delete and update all
return status `disabled` with zero transport calls (empty attempt trace,
and for update also an empty sub-call trace); the result is the same for
every MSISDN input, since the check precedes any parsing or endpoint
iteration. -/
theorem enum_C8 (c : ENUMClient) (T : TransportFn)
    (m ml o ol n nl : Option String) (hdis : c.enabled = false) :
    create_enum_entries c T m ml = .ok (⟨"disabled", [], []⟩, []) ∧
      delete_enum_entries c T m ml = .ok (⟨"disabled", [], []⟩, []) ∧
      update_enum_entries c T o ol n nl = ⟨.ok ⟨"disabled", [], [], []⟩, [], []⟩ := by
  refine ⟨?_, ?_, ?_⟩
  · rw [create_enum_entries, runOp, if_pos hdis]
  · rw [delete_enum_entries, runOp, if_pos hdis]
  · rw [update_enum_entries, if_pos hdis]

/-- Witness for C8 at a disabled configuration and concrete inputs. -/
theorem enum_C8_witness :
    cfgDisabled.enabled = false ∧
      create_enum_entries cfgDisabled TFail (some "111") none =
        .ok (⟨"disabled", [], []⟩, []) ∧
      delete_enum_entries cfgDisabled TFail (some "111") none =
        .ok (⟨"disabled", [], []⟩, []) ∧
      update_enum_entries cfgDisabled TFail (some "111") none (some "222") none =
        ⟨.ok ⟨"disabled", [], [], []⟩, [], []⟩ :=
  ⟨rfl, enum_C8 cfgDisabled TFail (some "111") none (some "111") none (some "222") none rfl⟩

/-! Reconciliation sweep lemmas (claims C4, C5 and C9). -/

theorem processSub_counters (c : ENUMClient) (T : TransportFn)
    (st : RecResult) (sub : Subscriber) :
    (processSub c T st sub).processed = st.processed + 1 ∧
      st.failed ≤ (processSub c T st sub).failed ∧
      (∃ ext, (processSub c T st sub).errors = st.errors ++ ext) ∧
      (processSub c T st sub).pagesFetched = st.pagesFetched ∧
      (processSub c T st sub).warnedCeiling = st.warnedCeiling := by
  cases hcr : create_enum_entries c T sub.msisdn sub.msisdn_list with
  | error x =>
    obtain ⟨msg, att⟩ := x
    simp [processSub, hcr, Nat.le_succ]
  | ok x =>
    obtain ⟨res, att⟩ := x
    simp only [processSub, hcr]
    split
    · simp
    · simp [Nat.le_succ]

theorem processSub_of_error (c : ENUMClient) (T : TransportFn)
    (st : RecResult) (sub : Subscriber) (msg : String) (att : List (String × String))
    (hcr : create_enum_entries c T sub.msisdn sub.msisdn_list = .error (msg, att)) :
    (processSub c T st sub).failed = st.failed + 1 ∧
      (processSub c T st sub).errors =
        st.errors ++ ["Subscriber " ++ optStr sub.ims_subscriber_id ++ ": " ++ msg] := by
  simp [processSub, hcr]

theorem foldl_processSub (c : ENUMClient) (T : TransportFn) :
    ∀ (subs : List Subscriber) (st : RecResult),
      (subs.foldl (processSub c T) st).processed = st.processed + subs.length ∧
        st.failed ≤ (subs.foldl (processSub c T) st).failed ∧
        (∃ ext, (subs.foldl (processSub c T) st).errors = st.errors ++ ext) ∧
        (subs.foldl (processSub c T) st).pagesFetched = st.pagesFetched ∧
        (subs.foldl (processSub c T) st).warnedCeiling = st.warnedCeiling := by
  intro subs
  induction subs with
  | nil => intro st; exact ⟨by simp, Nat.le_refl _, ⟨[], by simp⟩, rfl, rfl⟩
  | cons s rest ih =>
    intro st
    obtain ⟨hp1, hf1, ⟨e1, he1⟩, hg1, hw1⟩ := processSub_counters c T st s
    obtain ⟨hp2, hf2, ⟨e2, he2⟩, hg2, hw2⟩ := ih (processSub c T st s)
    refine ⟨?_, ?_, ⟨e1 ++ e2, ?_⟩, ?_, ?_⟩
    · simp only [List.foldl_cons, hp2, hp1, List.length_cons]
      omega
    · exact Nat.le_trans hf1 (by simpa using hf2)
    · simp only [List.foldl_cons, he2, he1]
      simp
    · simp only [List.foldl_cons, hg2, hg1]
    · simp only [List.foldl_cons, hw2, hw1]

theorem foldl_processSub_of_error (c : ENUMClient) (T : TransportFn) :
    ∀ (subs : List Subscriber) (st : RecResult),
      (∃ s ∈ subs, ∃ msg att,
        create_enum_entries c T s.msisdn s.msisdn_list = .error (msg, att)) →
      st.failed < (subs.foldl (processSub c T) st).failed ∧
        (subs.foldl (processSub c T) st).errors ≠ [] := by
  intro subs
  induction subs with
  | nil =>
    intro st h
    obtain ⟨s, hs, _⟩ := h
    cases hs
  | cons s rest ih =>
    intro st h
    obtain ⟨s', hs', msg, att, hcr⟩ := h
    rcases List.mem_cons.mp hs' with rfl | hs'
    · obtain ⟨hf, he⟩ := processSub_of_error c T st s' msg att hcr
      obtain ⟨_, hf2, ⟨e2, he2⟩, _, _⟩ := foldl_processSub c T rest (processSub c T st s')
      constructor
      · simp only [List.foldl_cons]
        omega
      · simp only [List.foldl_cons, he2, he]
        simp
    · obtain ⟨_, hf1, _, _, _⟩ := processSub_counters c T st s
      obtain ⟨hf2, he2⟩ := ih (processSub c T st s) ⟨s', hs', msg, att, hcr⟩
      exact ⟨Nat.lt_of_le_of_lt hf1 (by simpa using hf2), by simpa using he2⟩

theorem reconcileLoop_pages_le (c : ENUMClient) (T : TransportFn) (fetch : FetchFn) :
    ∀ (fuel page : Nat) (st : RecResult),
      (reconcileLoop c T fetch fuel page st).1.pagesFetched ≤ st.pagesFetched + fuel := by
  intro fuel
  induction fuel with
  | zero =>
    intro page st
    simp [reconcileLoop]
  | succ f ih =>
    intro page st
    rw [reconcileLoop]
    cases hf : fetch page 100 with
    | error e =>
      simp
    | ok subs =>
      simp only []
      by_cases hemp : subs.isEmpty = true
      · simp [hemp]
      · rw [Bool.not_eq_true] at hemp
        obtain ⟨_, _, _, hpg, _⟩ :=
          foldl_processSub c T subs { st with pagesFetched := st.pagesFetched + 1 }
        by_cases hcap : 10000 < page + 1
        · simp [hemp, hcap, hpg]
        · simp only [hemp, Bool.false_eq_true, if_false, hcap]
          have hh := ih (page + 1) (subs.foldl (processSub c T)
            { st with pagesFetched := st.pagesFetched + 1 })
          rw [hpg] at hh
          simp only [] at hh ⊢
          omega

theorem reconcileLoop_nonempty (c : ENUMClient) (T : TransportFn) (fetch : FetchFn)
    (hfetch : ∀ p, ∃ s, fetch p 100 = .ok s ∧ s.isEmpty = false) :
    ∀ (fuel page : Nat) (st : RecResult), page + fuel = 10001 →
      (reconcileLoop c T fetch fuel page st).1.pagesFetched = st.pagesFetched + fuel ∧
        (0 < fuel → (reconcileLoop c T fetch fuel page st).1.warnedCeiling = true) ∧
        (reconcileLoop c T fetch fuel page st).2 = none := by
  intro fuel
  induction fuel with
  | zero =>
    intro page st _
    simp [reconcileLoop]
  | succ f ih =>
    intro page st hpf
    obtain ⟨s, hs, hne⟩ := hfetch page
    rw [reconcileLoop]
    rw [hs]
    simp only [hne, if_false, Bool.false_eq_true]
    obtain ⟨_, _, _, hpg, hwd⟩ :=
      foldl_processSub c T s { st with pagesFetched := st.pagesFetched + 1 }
    by_cases hcap : 10000 < page + 1
    · have hf0 : f = 0 := by omega
      subst hf0
      simp only [hcap, if_true]
      simp [hpg]
    · simp only [hcap, if_false]
      have hrec := ih (page + 1)
        (s.foldl (processSub c T) { st with pagesFetched := st.pagesFetched + 1 })
        (by omega)
      refine ⟨?_, fun _ => ?_, hrec.2.2⟩
      · rw [hrec.1, hpg]
        simp
        omega
      · exact hrec.2.1 (by omega)

/-- The fuel argument of `reconcileLoop` is an artifact of the embedding:
any fuel covering the pages the Python `while True:` loop can still visit
(at most indices `page..10000`) produces the same result, so `10001`
units at page 0 model the unbounded loop faithfully. -/
theorem reconcileLoop_fuel_irrel (c : ENUMClient) (T : TransportFn) (fetch : FetchFn) :
    ∀ (f1 f2 page : Nat) (st : RecResult), page ≤ 10000 →
      10001 ≤ page + f1 → 10001 ≤ page + f2 →
      reconcileLoop c T fetch f1 page st = reconcileLoop c T fetch f2 page st := by
  intro f1
  induction f1 with
  | zero =>
    intro f2 page st h1 h2 _
    omega
  | succ f ih =>
    intro f2 page st h1 h2 h3
    cases f2 with
    | zero => omega
    | succ f2' =>
      simp only [reconcileLoop]
      cases hf : fetch page 100 with
      | error e => rfl
      | ok subs =>
        simp only []
        by_cases hemp : subs.isEmpty = true
        · simp [hemp]
        · simp only [hemp, if_false, Bool.false_eq_true]
          by_cases hcap : 10000 < page + 1
          · simp [hcap]
          · simp only [hcap, if_false]
            exact ih f2' (page + 1) _ (by omega) (by omega) (by omega)

theorem reconcileLoop_paged (c : ENUMClient) (T : TransportFn)
    (pages : List (List Subscriber)) (hlen : pages.length ≤ 10000)
    (hne : ∀ pg ∈ pages, pg ≠ []) :
    ∀ (fuel k : Nat) (st : RecResult), k + fuel = 10001 → k ≤ pages.length →
      (reconcileLoop c T (pagedFetch pages) fuel k st).2 = none ∧
        (reconcileLoop c T (pagedFetch pages) fuel k st).1.processed =
          st.processed + ((pages.drop k).flatten).length ∧
        st.failed ≤ (reconcileLoop c T (pagedFetch pages) fuel k st).1.failed ∧
        (∃ ext, (reconcileLoop c T (pagedFetch pages) fuel k st).1.errors =
          st.errors ++ ext) ∧
        ((∃ s ∈ (pages.drop k).flatten, ∃ msg att,
            create_enum_entries c T s.msisdn s.msisdn_list = .error (msg, att)) →
          st.failed < (reconcileLoop c T (pagedFetch pages) fuel k st).1.failed ∧
            (reconcileLoop c T (pagedFetch pages) fuel k st).1.errors ≠ []) := by
  intro fuel
  induction fuel with
  | zero =>
    intro k st hk hkl
    omega
  | succ f ih =>
    intro k st hk hkl
    rcases Nat.lt_or_ge k pages.length with hklt | hkge
    · have hfetch : pagedFetch pages k 100 = .ok pages[k] := by
        simp [pagedFetch, List.getElem?_eq_getElem hklt]
      have hpk : pages[k] ≠ [] := hne pages[k] (List.getElem_mem hklt)
      have hpkE : pages[k].isEmpty = false := by
        cases hx : pages[k] with
        | nil => exact absurd hx hpk
        | cons a b => simp
      have hdrop : pages.drop k = pages[k] :: pages.drop (k + 1) :=
        List.drop_eq_getElem_cons hklt
      rw [reconcileLoop, hfetch]
      simp only [hpkE, Bool.false_eq_true, if_false]
      have hcap : ¬ (10000 < k + 1) := by omega
      simp only [hcap, if_false]
      obtain ⟨hproc1, hfail1, ⟨e1, herr1⟩, _, _⟩ :=
        foldl_processSub c T pages[k] { st with pagesFetched := st.pagesFetched + 1 }
      obtain ⟨h2, hproc2, hfail2, ⟨e2, herr2⟩, himp2⟩ :=
        ih (k + 1) (pages[k].foldl (processSub c T)
          { st with pagesFetched := st.pagesFetched + 1 }) (by omega) (by omega)
      refine ⟨h2, ?_, ?_, ?_, ?_⟩
      · rw [hproc2, hproc1, hdrop, List.flatten_cons, List.length_append]
        simp only []
        omega
      · exact Nat.le_trans (by simpa using hfail1) hfail2
      · exact ⟨e1 ++ e2, by rw [herr2, herr1]; simp⟩
      · intro hex
        rw [hdrop] at hex
        simp only [List.flatten_cons] at hex
        obtain ⟨s, hs, msg, att, hcr⟩ := hex
        rcases List.mem_append.mp hs with hs | hs
        · obtain ⟨hflt, hfne⟩ := foldl_processSub_of_error c T pages[k]
            { st with pagesFetched := st.pagesFetched + 1 } ⟨s, hs, msg, att, hcr⟩
          refine ⟨Nat.lt_of_lt_of_le (by simpa using hflt) hfail2, ?_⟩
          rw [herr2]
          intro hcon
          rcases List.append_eq_nil.mp hcon with ⟨hc1, _⟩
          exact hfne hc1
        · obtain ⟨hflt, hfne⟩ := himp2 ⟨s, hs, msg, att, hcr⟩
          exact ⟨Nat.lt_of_le_of_lt (by simpa using hfail1) hflt, hfne⟩
    · have hkeq : k = pages.length := by omega
      have hfetch : pagedFetch pages k 100 = .ok [] := by
        simp [pagedFetch, List.getElem?_eq_none (show pages.length ≤ k by omega)]
      rw [reconcileLoop, hfetch]
      have hdrop : pages.drop k = [] := by
        rw [hkeq]
        exact List.drop_length pages
      simp [hdrop]

theorem reconcile_all_proj (c : ENUMClient) (T : TransportFn) (fetch : FetchFn)
    (hen : c.enabled = true) :
    (reconcile_all c T fetch).pagesFetched =
        (reconcileLoop c T fetch 10001 0 ⟨"ok", 0, 0, 0, [], [], 0, false⟩).1.pagesFetched ∧
      (reconcile_all c T fetch).warnedCeiling =
        (reconcileLoop c T fetch 10001 0 ⟨"ok", 0, 0, 0, [], [], 0, false⟩).1.warnedCeiling ∧
      (reconcile_all c T fetch).processed =
        (reconcileLoop c T fetch 10001 0 ⟨"ok", 0, 0, 0, [], [], 0, false⟩).1.processed ∧
      (reconcile_all c T fetch).failed =
        (reconcileLoop c T fetch 10001 0 ⟨"ok", 0, 0, 0, [], [], 0, false⟩).1.failed ∧
      ((reconcileLoop c T fetch 10001 0 ⟨"ok", 0, 0, 0, [], [], 0, false⟩).2 = none →
        (reconcile_all c T fetch).errors =
          (reconcileLoop c T fetch 10001 0 ⟨"ok", 0, 0, 0, [], [], 0, false⟩).1.errors) := by
  cases hL2 : (reconcileLoop c T fetch 10001 0 ⟨"ok", 0, 0, 0, [], [], 0, false⟩).2 with
  | none =>
    rw [reconcile_all, if_neg (by simp [hen])]
    simp only [hL2]
    split <;> simp
  | some e =>
    rw [reconcile_all, if_neg (by simp [hen])]
    simp only [hL2]
    split <;> simp

/-- Claim C9: over any subscriber population served in non-empty pages
(at most 10000 of them), if some subscriber's create call raises a
strict-mode failure, the sweep still processes every subscriber
(`processed` equals the population size), the failed counter is at least
one, and the subscriber's error is recorded in the global error list. -/
theorem enum_C9 (c : ENUMClient) (T : TransportFn) (pages : List (List Subscriber))
    (hen : c.enabled = true) (hlen : pages.length ≤ 10000)
    (hne : ∀ pg ∈ pages, pg ≠ [])
    (herr : ∃ s ∈ pages.flatten, ∃ msg att,
      create_enum_entries c T s.msisdn s.msisdn_list = .error (msg, att)) :
    (reconcile_all c T (pagedFetch pages)).processed = pages.flatten.length ∧
      0 < (reconcile_all c T (pagedFetch pages)).failed ∧
      (reconcile_all c T (pagedFetch pages)).errors ≠ [] := by
  obtain ⟨h2, hproc, _, _, himp⟩ :=
    reconcileLoop_paged c T pages hlen hne 10001 0
      ⟨"ok", 0, 0, 0, [], [], 0, false⟩ (by omega) (by omega)
  rw [List.drop_zero] at hproc himp
  obtain ⟨hflt, hfne⟩ := himp herr
  obtain ⟨hpg, hwd, hpr, hfl, herrs⟩ := reconcile_all_proj c T (pagedFetch pages) hen
  refine ⟨?_, ?_, ?_⟩
  · rw [hpr, hproc]
    simp
  · rw [hfl]
    simpa using hflt
  · rw [herrs h2]
    exact hfne

/-- Witness for C9: one page of two subscribers under a strict
configuration whose transport always fails; the first subscriber's
create raises, yet both subscribers are processed and the failure is
recorded. -/
theorem enum_C9_witness :
    cfgStrict.enabled = true ∧
      (reconcile_all cfgStrict TFail (pagedFetch [[subA, subB]])).processed = 2 ∧
      0 < (reconcile_all cfgStrict TFail (pagedFetch [[subA, subB]])).failed ∧
      (reconcile_all cfgStrict TFail (pagedFetch [[subA, subB]])).errors ≠ [] := by
  have h := enum_C9 cfgStrict TFail [[subA, subB]] rfl (by decide) (by decide)
    ⟨subA, by decide, "ENUM creation failed: ep1/d1: boom", [("ep1", "d1")], by decide⟩
  exact ⟨rfl, h.1.trans (by decide), h.2.1, h.2.2⟩

/-- Counterexample for C5 as stated: against a subscriber source that
never returns an empty page, the sweep requests pages 0 through 10000 —
10001 `getAllPaginated` calls, not "at most 10,000": the loop increments
`page` and only then checks `page > 10000`. -/
theorem enum_C5_counterexample :
    (reconcile_all cfgNoEp TOk fetchAlways).pagesFetched = 10001 ∧
      ¬ (reconcile_all cfgNoEp TOk fetchAlways).pagesFetched ≤ 10000 := by
  have h := reconcileLoop_nonempty cfgNoEp TOk fetchAlways
    (fun _p => ⟨[subA], rfl, rfl⟩) 10001 0 ⟨"ok", 0, 0, 0, [], [], 0, false⟩ (by omega)
  obtain ⟨hpg, _, _, _, _⟩ := reconcile_all_proj cfgNoEp TOk fetchAlways rfl
  have hval : (reconcile_all cfgNoEp TOk fetchAlways).pagesFetched = 10001 := by
    rw [hpg, h.1]
  exact ⟨hval, by omega⟩

/-- Claim C5 (amended): every reconciliation sweep makes at most 10001
page requests (the loop can visit page indices 0 through 10000), and for
a source that never returns an empty page it makes exactly 10001 requests
and ends by taking the page-ceiling warning branch while still returning
a result; `reconcileLoop_fuel_irrel` certifies that the embedding's fuel
does not constrain this behaviour. -/
theorem enum_C5_amended :
    (∀ (c : ENUMClient) (T : TransportFn) (fetch : FetchFn),
        (reconcile_all c T fetch).pagesFetched ≤ 10001) ∧
      ∀ (c : ENUMClient) (T : TransportFn) (fetch : FetchFn),
        c.enabled = true →
        (∀ p, ∃ s, fetch p 100 = .ok s ∧ s.isEmpty = false) →
        (reconcile_all c T fetch).pagesFetched = 10001 ∧
          (reconcile_all c T fetch).warnedCeiling = true := by
  constructor
  · intro c T fetch
    by_cases hen : c.enabled = true
    · obtain ⟨hpg, _, _, _, _⟩ := reconcile_all_proj c T fetch hen
      rw [hpg]
      have := reconcileLoop_pages_le c T fetch 10001 0 ⟨"ok", 0, 0, 0, [], [], 0, false⟩
      simpa using this
    · rw [reconcile_all, if_pos (by simpa using hen)]
      simp
  · intro c T fetch hen hfetch
    obtain ⟨hpg, hwd, _, _, _⟩ := reconcile_all_proj c T fetch hen
    have h := reconcileLoop_nonempty c T fetch hfetch 10001 0
      ⟨"ok", 0, 0, 0, [], [], 0, false⟩ (by omega)
    constructor
    · rw [hpg, h.1]
    · rw [hwd, h.2.1 (by omega)]

/-- Witness for C5 (amended) at the concrete never-empty source. -/
theorem enum_C5_witness :
    cfgNoEp.enabled = true ∧
      (reconcile_all cfgNoEp TOk fetchAlways).pagesFetched = 10001 ∧
      (reconcile_all cfgNoEp TOk fetchAlways).warnedCeiling = true :=
  ⟨rfl, enum_C5_amended.2 cfgNoEp TOk fetchAlways rfl (fun _p => ⟨[subA], rfl, rfl⟩)⟩

/-- Claim C4 evaluated at its failing input: a sweep whose first page
contains a subscriber that raises a strict-mode failure (so `failed` is
incremented), after which the subscriber source itself raises.  The
exception is caught at the sweep level, the diagnostic is appended, and
a complete result object is returned — but the final
`if results['failed'] > 0: results['status'] = 'partial'` of
`reconcile_all` overwrites the `'error'` status set in the `except`
block, so the returned status is `partial`, contradicting the claim (and
the intent visible in the `except` block). -/
theorem enum_C4_bug :
    (reconcile_all cfgStrict TFail fetchThenDown).status = "partial" ∧
      (reconcile_all cfgStrict TFail fetchThenDown).status ≠ "error" ∧
      (reconcile_all cfgStrict TFail fetchThenDown).errors =
        ["Subscriber 1: ENUM creation failed: ep1/d1: boom",
         "Reconciliation failed: db down"] ∧
      (reconcile_all cfgStrict TFail fetchThenDown).failed = 1 ∧
      (reconcile_all cfgStrict TFail fetchThenDown).processed = 1 := by
  decide
